import Mathlib

/-!
Verification of the trading bot's simulation and risk core.

The definitions below are shallow embeddings of the Python source over exact
rational arithmetic:

* `TradingBot.Engine` embeds `src/backtest/engine.py` (the per-bar simulation
  loop `_run_simulation`, `_open_position`, `_close_position`, the inline
  trailing-stop update and exit checks);
* `TradingBot.RiskManager` embeds `src/execution/risk_manager.py`
  (`calculate_position_size`, `check_trailing_stop`);
* `TradingBot.PositionManager` embeds `src/execution/position_manager.py`
  (`add_position`'s dict insertion, the P&L fields of `close_position`, and the
  profit-factor aggregation of `calculate_portfolio_metrics`);
* `TradingBot.Metrics` embeds `src/backtest/metrics.py`
  (`calculate_max_drawdown`, the profit factor of `analyze_trades`);
* `TradingBot.Optimizer` embeds the window generation of
  `walk_forward_optimization` in `src/backtest/optimizer.py`.

Python floats are modelled as `ℚ`, datetimes as integer day counts, and the
per-symbol position dict of the single-symbol simulation as an
`Option` position.  Python's `int(x)` (truncation toward zero) is `pyInt`.
Strategy signal evaluation (`check_buy_signals` / `check_sell_signals` over the
bar-history slice) is abstracted as a boolean function of the bar index, which
determines the slice; the equity-curve bookkeeping of the loop is omitted
because it never feeds back into capital, positions or trades.
-/

namespace TradingBot

/-- Python's `int(x)` applied to a float: truncation toward zero. -/
def pyInt (q : ℚ) : ℤ := if 0 ≤ q then ⌊q⌋ else -⌊-q⌋

namespace Engine

/-- The configuration fields `_run_simulation` / `_open_position` /
`_close_position` read.  Percent-valued fields keep the source's percent units
(the code divides them by 100 at use sites). -/
structure EngineConfig where
  commissionRate : ℚ
  maxPositionSize : ℚ
  stopLossPercent : ℚ
  takeProfitPercent : ℚ
  trailingStopPercent : ℚ
  maxHoldingDays : ℤ

/-- One price bar: its date (day count) and close price, the only bar data the
simulation loop reads. -/
structure Bar where
  date : ℤ
  close : ℚ

/-- The position dict built in `_open_position`. -/
structure EnginePosition where
  entryPrice : ℚ
  quantity : ℤ
  entryDate : ℤ
  stopLoss : ℚ
  takeProfit : ℚ
  maxPrice : ℚ
  value : ℚ
  stopType : String

/-- A row of `self.trades` (the union of the buy-record and sell-record
fields that are read downstream). -/
structure TradeRecord where
  side : String
  reason : String
  entryPrice : ℚ
  exitPrice : ℚ
  quantity : ℤ
  commission : ℚ
  profit : ℚ
  profitPercent : ℚ
  entryDate : ℤ
  exitDate : ℤ

/-- The engine state the loop mutates: `self.capital`, `self.positions`
(single symbol, hence an `Option`), `self.trades`, `self.max_capital`. -/
structure EngineState where
  capital : ℚ
  pos : Option EnginePosition
  trades : List TradeRecord
  maxCapital : ℚ

/-- Source `BacktestEngine._open_position`: sizes the position from
`capital * MAX_POSITION_SIZE`, divides by `price * (1 + commission_rate)` and
truncates; re-derives the quantity from full capital when the first total cost
overshoots; vetoes (no-op) when a position is already open, when the quantity
is non-positive, or when the cost still exceeds capital. -/
def open_position (cfg : EngineConfig) (st : EngineState) (price : ℚ) (date : ℤ) :
    EngineState :=
  match st.pos with
  | some _ => st
  | none =>
    let maxPositionValue := st.capital * cfg.maxPositionSize
    let quantity := pyInt (maxPositionValue / (price * (1 + cfg.commissionRate)))
    if quantity ≤ 0 then st
    else
      let positionValue := (quantity : ℚ) * price
      let commission := positionValue * cfg.commissionRate
      let totalCost := positionValue + commission
      let quantity2 :=
        if totalCost > st.capital then
          pyInt (st.capital / (price * (1 + cfg.commissionRate)))
        else quantity
      let positionValue2 := (quantity2 : ℚ) * price
      let commission2 := positionValue2 * cfg.commissionRate
      let totalCost2 := positionValue2 + commission2
      if quantity2 ≤ 0 ∨ totalCost2 > st.capital then st
      else
        { capital := st.capital - totalCost2
          pos := some
            { entryPrice := price
              quantity := quantity2
              entryDate := date
              stopLoss := price * (1 - cfg.stopLossPercent / 100)
              takeProfit := price * (1 + cfg.takeProfitPercent / 100)
              maxPrice := price
              value := positionValue2
              stopType := "fixed" }
          trades := st.trades ++
            [{ side := "buy", reason := "", entryPrice := price, exitPrice := 0,
               quantity := quantity2, commission := commission2, profit := 0,
               profitPercent := 0, entryDate := date, exitDate := date }]
          maxCapital := st.maxCapital }

/-- Source `BacktestEngine._close_position`: adds `close_value - commission` back to
capital, updates the capital high-water mark, records the sell trade with
`profit = close_value - entry_value - commission - entry_value * commission_rate`
and removes the position; a no-op when no position is open. -/
def close_position (cfg : EngineConfig) (st : EngineState) (price : ℚ) (date : ℤ)
    (reason : String) : EngineState :=
  match st.pos with
  | none => st
  | some position =>
    let closeValue := (position.quantity : ℚ) * price
    let commission := closeValue * cfg.commissionRate
    let capital2 := st.capital + (closeValue - commission)
    let maxCapital2 := if capital2 > st.maxCapital then capital2 else st.maxCapital
    let entryValue := (position.quantity : ℚ) * position.entryPrice
    let profit := closeValue - entryValue - commission - entryValue * cfg.commissionRate
    let profitPercent :=
      (price / position.entryPrice - 1) * 100 - cfg.commissionRate * 200
    { capital := capital2
      pos := none
      trades := st.trades ++
        [{ side := "sell", reason := reason, entryPrice := position.entryPrice,
           exitPrice := price, quantity := position.quantity,
           commission := commission, profit := profit,
           profitPercent := profitPercent, entryDate := position.entryDate,
           exitDate := date }]
      maxCapital := maxCapital2 }

/-- The inline trailing-stop update of `_run_simulation` (engine.py lines
228-236): when the current price exceeds the recorded maximum, the maximum is
raised and the stop is replaced by `price * (1 - TRAILING_STOP_PERCENT/100)`
only when that candidate is strictly above the existing stop. -/
def update_trailing (cfg : EngineConfig) (position : EnginePosition) (price : ℚ) :
    EnginePosition :=
  if price > position.maxPrice then
    let newStopLevel := price * (1 - cfg.trailingStopPercent / 100)
    if newStopLevel > position.stopLoss then
      { position with
          maxPrice := price
          stopLoss := newStopLevel
          stopType := "trailing" }
    else
      { position with maxPrice := price }
  else position

/-- The three risk-exit conditions of `_run_simulation` (engine.py lines
239-256), in the source's order; each arm `continue`s past the later ones. -/
inductive ExitKind where
  | stop_loss
  | take_profit
  | max_holding_time
deriving DecidableEq

/-- The exit decision of `_run_simulation` for an open position on one bar:
stop-loss (`price <= stop_loss`), else take-profit (`price >= take_profit`),
else holding time (`(date - entry_date).days >= MAX_HOLDING_DAYS`). -/
def check_exit (cfg : EngineConfig) (position : EnginePosition) (price : ℚ)
    (date : ℤ) : Option ExitKind :=
  if price ≤ position.stopLoss then some ExitKind.stop_loss
  else if price ≥ position.takeProfit then some ExitKind.take_profit
  else if date - position.entryDate ≥ cfg.maxHoldingDays then
    some ExitKind.max_holding_time
  else none

/-- One iteration of the bar loop of `_run_simulation` at bar index `i`:
with an open position, update the trailing stop in place, then run the exit
checks (recording the same reason strings as the source), then the strategy
sell signal; with no position, act on the strategy buy signal.  `sell` and
`buy` abstract `strategy.check_sell_signals` / `check_buy_signals` on the
history slice `data.iloc[:i+1]`, which the index determines. -/
def sim_step (cfg : EngineConfig) (sell buy : ℕ → Bool) (st : EngineState)
    (i : ℕ) (bar : Bar) : EngineState :=
  match st.pos with
  | some position0 =>
    let position := update_trailing cfg position0 bar.close
    let st2 : EngineState := { st with pos := some position }
    match check_exit cfg position bar.close bar.date with
    | some ExitKind.stop_loss =>
        close_position cfg st2 bar.close bar.date
          ("stop_loss (" ++ position.stopType ++ ")")
    | some ExitKind.take_profit =>
        close_position cfg st2 bar.close bar.date "take_profit"
    | some ExitKind.max_holding_time =>
        close_position cfg st2 bar.close bar.date "max_holding_time"
    | none =>
        if sell i then close_position cfg st2 bar.close bar.date "strategy_signal"
        else st2
  | none =>
    if buy i then open_position cfg st bar.close bar.date else st

/-- The bar loop of `_run_simulation` over index-bar pairs. -/
def run_sim_loop (cfg : EngineConfig) (sell buy : ℕ → Bool) (st : EngineState)
    (bars : List (ℕ × Bar)) : EngineState :=
  bars.foldl (fun s ib => sim_step cfg sell buy s ib.1 ib.2) st

/-- Source `_run_simulation`: the bar loop followed by the forced closure of any
remaining position at the last bar's close price and date with reason
`"end_of_backtest"` (the loop over `self.positions` closes the one possible
open position of the single-symbol run). -/
def run_simulation (cfg : EngineConfig) (sell buy : ℕ → Bool) (st0 : EngineState)
    (bars : List Bar) : EngineState :=
  match bars.getLast? with
  | none => run_sim_loop cfg sell buy st0 bars.enum
  | some lastBar =>
    match (run_sim_loop cfg sell buy st0 bars.enum).pos with
    | some _ =>
      close_position cfg (run_sim_loop cfg sell buy st0 bars.enum)
        lastBar.close lastBar.date "end_of_backtest"
    | none => run_sim_loop cfg sell buy st0 bars.enum

end Engine

namespace RiskManager

/-- A position dict as `RiskManager` reads it: every access goes through
`.get(key, default)`, so each field is optional here and the accessors below
apply the source's defaults. -/
structure RmPosition where
  direction : Option String
  entryPrice : Option ℚ
  stopLoss : Option ℚ
  maxPrice : Option ℚ
  takeProfit : Option ℚ

/-- Source `RiskManager.calculate_position_size`: value is
`min(capital - used_capital, capital * max_position_size)`; the lot count
divides by the hard-coded commission factor `1.003` and truncates.  The
`positions` dict enters only through its `value` fields, passed here as a
list. -/
def calculate_position_size (maxPositionSize : ℚ) (capital price : ℚ)
    (positionValues : List ℚ) : ℚ × ℤ :=
  let usedCapital := positionValues.foldl (fun a v => a + v) 0
  let availableCapital := capital - usedCapital
  let maxPositionValue := capital * maxPositionSize
  let positionValue := min availableCapital maxPositionValue
  let commissionFactor : ℚ := 1003 / 1000
  let quantity := pyInt (positionValue / (price * commissionFactor))
  (positionValue, quantity)

/-- Source `RiskManager.check_trailing_stop`: for a long position (no `direction`
key, or `direction == "buy"`), raise the running maximum when exceeded and
return the candidate stop `new_max * (1 - trailing_stop_percent)` only when it
strictly improves the stop; otherwise report `triggered` exactly when the
existing stop is positive, the (possibly raised) maximum is above entry, and
the current price is at or below the existing stop. -/
def check_trailing_stop (trailingStopPercent : ℚ) (position : RmPosition)
    (currentPrice : ℚ) : Bool × ℚ :=
  if position.direction = none ∨ position.direction = some "buy" then
    let entryPrice := position.entryPrice.getD 0
    let stopLoss := position.stopLoss.getD 0
    let maxPrice := position.maxPrice.getD entryPrice
    if currentPrice > maxPrice then
      let maxPrice2 := currentPrice
      let newStop := maxPrice2 * (1 - trailingStopPercent)
      if newStop > stopLoss then (false, newStop)
      else if stopLoss > 0 ∧ maxPrice2 > entryPrice ∧ currentPrice ≤ stopLoss then
        (true, stopLoss)
      else (false, position.stopLoss.getD 0)
    else
      if stopLoss > 0 ∧ maxPrice > entryPrice ∧ currentPrice ≤ stopLoss then
        (true, stopLoss)
      else (false, position.stopLoss.getD 0)
  else (false, position.stopLoss.getD 0)

end RiskManager

namespace PositionManager

/-- The entry dict handed to `PositionManager.add_position`; optional fields
are the ones the method fills with defaults when missing. -/
structure EntryInfo where
  entryPrice : ℚ
  quantity : ℚ
  entryTime : Option String
  value : Option ℚ
  direction : Option String
  infoId : Option String

/-- A stored ledger position after `add_position` has applied its defaults. -/
structure LedgerPos where
  entryPrice : ℚ
  quantity : ℚ
  entryTime : String
  value : ℚ
  direction : String
  posId : String
deriving DecidableEq

/-- The field-defaulting of `add_position` (entry time from `datetime.now()`,
`value = entry_price * quantity`, `direction = "buy"`, a generated id). -/
def normalize_entry (nowIso nowId : String) (symbol : String) (info : EntryInfo) :
    LedgerPos :=
  { entryPrice := info.entryPrice
    quantity := info.quantity
    entryTime := info.entryTime.getD nowIso
    value := info.value.getD (info.entryPrice * info.quantity)
    direction := info.direction.getD "buy"
    posId := info.infoId.getD (symbol ++ "_" ++ nowId) }

/-- Python dict assignment `self.positions[symbol] = position_info` on an
association-list model of the dict: replace the value when the key is present,
append otherwise. -/
def dict_set (ps : List (String × LedgerPos)) (k : String) (v : LedgerPos) :
    List (String × LedgerPos) :=
  if ps.any (fun kv => kv.1 = k) then
    ps.map (fun kv => if kv.1 = k then (k, v) else kv)
  else ps ++ [(k, v)]

/-- Python dict lookup `self.positions.get(symbol)`. -/
def dict_get (ps : List (String × LedgerPos)) (k : String) : Option LedgerPos :=
  (ps.find? (fun kv => kv.1 = k)).map Prod.snd

/-- Source `PositionManager.add_position`: applies the field defaults and stores the
position under the symbol unconditionally (there is no already-open check). -/
def add_position (nowIso nowId : String) (ps : List (String × LedgerPos))
    (symbol : String) (info : EntryInfo) : List (String × LedgerPos) :=
  dict_set ps symbol (normalize_entry nowIso nowId symbol info)

/-- The percent P&L computed in `PositionManager.close_position`
(lines 114-126): long positions use `close/entry - 1`, short ones
`entry/close - 1`, both times 100.  No commission term appears. -/
def pnl_percent (direction : String) (entryPrice closePrice : ℚ) : ℚ :=
  if direction = "buy" then (closePrice / entryPrice - 1) * 100
  else (entryPrice / closePrice - 1) * 100

/-- The absolute P&L computed in `PositionManager.close_position` (line 130):
`(close_price - entry_price) * quantity`, with no commission term. -/
def pnl_absolute (entryPrice closePrice quantity : ℚ) : ℚ :=
  (closePrice - entryPrice) * quantity

/-- The two P&L fields a closed long position carries into
`calculate_portfolio_metrics`. -/
structure ClosedTrade where
  pnlPercent : ℚ
  pnlAbsolute : ℚ
deriving DecidableEq

/-- The P&L snapshot `close_position` records for a long position closed at
`closePrice`. -/
def close_pnl (entryPrice closePrice quantity : ℚ) : ClosedTrade :=
  { pnlPercent := pnl_percent "buy" entryPrice closePrice
    pnlAbsolute := pnl_absolute entryPrice closePrice quantity }

/-- A Python float that is either a finite value or `float('inf')`, as the
profit-factor computations produce. -/
inductive PFValue where
  | val (q : ℚ)
  | inf
deriving DecidableEq

/-- Source `winning_trades` of `calculate_portfolio_metrics`: closed positions with
positive percent P&L. -/
def winning_trades (closed : List ClosedTrade) : List ClosedTrade :=
  closed.filter (fun p => p.pnlPercent > 0)

/-- Source `losing_trades` of `calculate_portfolio_metrics`: closed positions with
non-positive percent P&L. -/
def losing_trades (closed : List ClosedTrade) : List ClosedTrade :=
  closed.filter (fun p => p.pnlPercent ≤ 0)

/-- Source `total_wins` of `calculate_portfolio_metrics`: sum of the winning trades'
absolute P&L. -/
def total_wins (closed : List ClosedTrade) : ℚ :=
  (winning_trades closed).foldl (fun a p => a + p.pnlAbsolute) 0

/-- Source `total_losses` of `calculate_portfolio_metrics`: sum of the losing trades'
absolute P&L magnitudes. -/
def total_losses (closed : List ClosedTrade) : ℚ :=
  (losing_trades closed).foldl (fun a p => a + |p.pnlAbsolute|) 0

/-- The `profit_factor` field of `calculate_portfolio_metrics`: 0 with no
closed trades (both the all-empty early return and the
`closed_positions_count == 0` branch), otherwise `total_wins / total_losses`
when `total_losses > 0` and `float('inf')` when not. -/
def profit_factor (closed : List ClosedTrade) : PFValue :=
  if closed.isEmpty then PFValue.val 0
  else if total_losses closed > 0 then
    PFValue.val (total_wins closed / total_losses closed)
  else PFValue.inf

end PositionManager

namespace Metrics

/-- The drawdown series of `PerformanceMetrics.calculate_max_drawdown`:
`equity / running_max - 1` per point, carrying the expanding maximum `m` of
the points already seen (the current point included, as
`expanding().max()` does). -/
def dd_list (m : ℚ) : List ℚ → List ℚ
  | [] => []
  | x :: xs =>
    let m2 := max m x
    (x / m2 - 1) :: dd_list m2 xs

/-- Source `Series.min` of a non-empty series (0 for an empty one, which the source
leaves as NaN). -/
def list_min : List ℚ → ℚ
  | [] => 0
  | x :: xs => xs.foldl min x

/-- Source `PerformanceMetrics.calculate_max_drawdown`: the absolute value of the
most negative point of the drawdown series, the expanding maximum seeded by
the first equity value. -/
def calculate_max_drawdown : List ℚ → ℚ
  | [] => 0
  | x :: xs => |list_min (dd_list x (x :: xs))|

/-- Source `total_profit` of `PerformanceMetrics.analyze_trades`: sum of the positive
trade profits. -/
def mt_total_profit (profits : List ℚ) : ℚ :=
  (profits.filter (fun x => x > 0)).foldl (fun a x => a + x) 0

/-- Source `total_loss` of `PerformanceMetrics.analyze_trades`: the absolute value of
the summed non-positive trade profits. -/
def mt_total_loss (profits : List ℚ) : ℚ :=
  |(profits.filter (fun x => x ≤ 0)).foldl (fun a x => a + x) 0|

/-- The `profit_factor` field of `PerformanceMetrics.analyze_trades`
(0 with no closed trades, `total_profit / total_loss` when `total_loss > 0`,
`float('inf')` otherwise). -/
def analyze_trades_pf (profits : List ℚ) : PositionManager.PFValue :=
  if profits.isEmpty then PositionManager.PFValue.val 0
  else if mt_total_loss profits > 0 then
    PositionManager.PFValue.val (mt_total_profit profits / mt_total_loss profits)
  else PositionManager.PFValue.inf

end Metrics

namespace Optimizer

/-- The window loop of `StrategyOptimizer.walk_forward_optimization`, dates as
day offsets from `start_date` with `D` the whole period in days: while
`current + window_size <= D`, emit the training window `[current, current+w]`
and the validation window ending at `min(current+w+s, D)`, then advance by the
step.  The loop terminates because the step is positive; `fuel` bounds the
iteration count (`D + 1` always suffices). -/
def wf_loop (w s D : ℕ) : ℕ → ℕ → List (ℕ × ℕ × ℕ)
  | 0, _ => []
  | fuel + 1, cur =>
    if cur + w ≤ D then
      (cur, cur + w, min (cur + w + s) D) :: wf_loop w s D fuel (cur + s)
    else []

/-- The list of (train start, train end = validation start, validation end)
windows `walk_forward_optimization` iterates over for a period of `D` days,
training window `w` and step `s`. -/
def walk_forward_windows (w s D : ℕ) : List (ℕ × ℕ × ℕ) :=
  wf_loop w s D (D + 1) 0

end Optimizer

/-- The invariant the cash-balance argument tracks through the simulation:
cash is non-negative and any open position has a positive lot count. -/
def CashInv (st : Engine.EngineState) : Prop :=
  0 ≤ st.capital ∧ ∀ p, st.pos = some p → 0 < p.quantity

/-- A concrete configuration (no commission, 90% sizing, 50% stop, 100%
target, 50% trailing, 100-day cap) used to evaluate the engine on concrete
runs. -/
def cfgA : Engine.EngineConfig :=
  { commissionRate := 0
    maxPositionSize := 9 / 10
    stopLossPercent := 50
    takeProfitPercent := 100
    trailingStopPercent := 50
    maxHoldingDays := 100 }

/-- A one-bar price history at a constant price of 10. -/
def barsA : List Engine.Bar := [{ date := 0, close := 10 }]

/-- A strategy that never issues a sell signal. -/
def sellA : ℕ → Bool := fun _ => false

/-- A strategy that issues a buy signal on every bar. -/
def buyA : ℕ → Bool := fun _ => true

/-- A fresh engine state with capital 1000. -/
def stA : Engine.EngineState :=
  { capital := 1000, pos := none, trades := [], maxCapital := 1000 }

/-- A ledger position already stored for an instrument (entry at 100). -/
def oldPosA : PositionManager.LedgerPos :=
  { entryPrice := 100, quantity := 1, entryTime := "t0", value := 100,
    direction := "buy", posId := "SBER_1" }

/-- A second entry for the same instrument (entry at 200), submitted while
`oldPosA` is still open. -/
def newInfoA : PositionManager.EntryInfo :=
  { entryPrice := 200, quantity := 2, entryTime := some "t1", value := none,
    direction := none, infoId := some "SBER_2" }

/-- C1.  The simulation close (`BacktestEngine._close_position`) records
realized profit `close_value - entry_value - entry_commission -
exit_commission`, commission on both legs subtracted exactly once; but the
ledger close (`PositionManager.close_position`) records
`pnl_absolute = (close_price - entry_price) * quantity` with no commission at
all, so at entry 100, close 110, quantity 10, rate 0.3% it records 100 where
the both-legs formula gives 93.7. -/
theorem c1_profit_commission_both_legs :
    ∀ (cfg : Engine.EngineConfig) (capital maxCap : ℚ)
      (trades : List Engine.TradeRecord) (p : Engine.EnginePosition)
      (price : ℚ) (date : ℤ) (reason : String),
      (∃ t : Engine.TradeRecord,
        (Engine.close_position cfg ⟨capital, some p, trades, maxCap⟩
            price date reason).trades = trades ++ [t] ∧
        t.profit =
          (p.quantity : ℚ) * price - (p.quantity : ℚ) * p.entryPrice
            - (p.quantity : ℚ) * p.entryPrice * cfg.commissionRate
            - (p.quantity : ℚ) * price * cfg.commissionRate) ∧
      PositionManager.pnl_absolute 100 110 10 = 100 ∧
      (100 : ℚ) ≠
        110 * 10 - 100 * 10 - 100 * 10 * (3 / 1000) - 110 * 10 * (3 / 1000) := by
  intro cfg capital maxCap trades p price date reason
  refine ⟨⟨_, rfl, by ring⟩, by norm_num [PositionManager.pnl_absolute], by norm_num⟩

/-- C4, counterexample.  With capital 400, price 500 and no open positions,
`calculate_position_size` cannot afford one lot yet returns `(360, 0)`, not
the `(0, 0)` the claim asserts. -/
theorem c4_counterexample :
    RiskManager.calculate_position_size (9 / 10) 400 500 [] = (360, 0) ∧
      ((360 : ℚ), (0 : ℤ)) ≠ ((0 : ℚ), (0 : ℤ)) := by
  constructor
  · norm_num [RiskManager.calculate_position_size, pyInt, min_def]
  · norm_num

/-- C4, amended.  `calculate_position_size` allocates
`min(capital - used, max_position_fraction * capital)`; the lot count is the
floor of that value divided by `price * 1.003` (the commission factor is
hard-coded at 0.3%), it is 0 — paired with the unspent value, not `(0, 0)` —
whenever the value cannot afford one lot, and the capital-50000/price-500
scenario yields 89 lots, not 90. -/
theorem c4_position_sizing :
    ∀ (mps capital price : ℚ) (vals : List ℚ),
      (RiskManager.calculate_position_size mps capital price vals).1
          = min (capital - vals.foldl (fun a v => a + v) 0) (mps * capital) ∧
      (0 ≤ price →
        0 ≤ (RiskManager.calculate_position_size mps capital price vals).1 →
        (RiskManager.calculate_position_size mps capital price vals).2
          = ⌊(RiskManager.calculate_position_size mps capital price vals).1
              / (price * (1003 / 1000))⌋) ∧
      (0 < price →
        0 ≤ (RiskManager.calculate_position_size mps capital price vals).1 →
        (RiskManager.calculate_position_size mps capital price vals).1
            < price * (1003 / 1000) →
        (RiskManager.calculate_position_size mps capital price vals).2 = 0) ∧
      RiskManager.calculate_position_size (9 / 10) 50000 500 [] = (45000, 89) := by
  intro mps capital price vals
  refine ⟨by simp [RiskManager.calculate_position_size, mul_comm], ?_, ?_, ?_⟩
  · intro hp hv
    simp only [RiskManager.calculate_position_size] at hv ⊢
    have hq : 0 ≤ min (capital - vals.foldl (fun a v => a + v) 0) (capital * mps)
        / (price * (1003 / 1000)) := by
      rcases eq_or_lt_of_le hp with h | h
      · rw [← h]; norm_num
      · exact div_nonneg hv (by positivity)
    simp [pyInt, hq]
  · intro hp hv hlt
    simp only [RiskManager.calculate_position_size] at hv hlt ⊢
    have hd : 0 < price * (1003 / 1000) := by positivity
    have hq0 : 0 ≤ min (capital - vals.foldl (fun a v => a + v) 0) (capital * mps)
        / (price * (1003 / 1000)) := div_nonneg hv (le_of_lt hd)
    have hq1 : min (capital - vals.foldl (fun a v => a + v) 0) (capital * mps)
        / (price * (1003 / 1000)) < 1 := (div_lt_one hd).mpr hlt
    simp [pyInt, hq0]
    exact hq1
  · norm_num [RiskManager.calculate_position_size, pyInt, min_def]

/-- C5.  The engine's per-bar exit evaluation reports `stop_loss` exactly when
`price ≤ stop`, `take_profit` exactly when the stop did not fire and
`price ≥ target`, `max_holding_time` exactly when neither fired and the
holding-day cap is reached, and nothing otherwise: first match wins and at
most one reason is ever reported. -/
theorem c5_exit_precedence :
    ∀ (cfg : Engine.EngineConfig) (p : Engine.EnginePosition) (price : ℚ)
      (date : ℤ),
      (Engine.check_exit cfg p price date = some Engine.ExitKind.stop_loss ↔
        price ≤ p.stopLoss) ∧
      (Engine.check_exit cfg p price date = some Engine.ExitKind.take_profit ↔
        ¬price ≤ p.stopLoss ∧ p.takeProfit ≤ price) ∧
      (Engine.check_exit cfg p price date = some Engine.ExitKind.max_holding_time ↔
        ¬price ≤ p.stopLoss ∧ ¬p.takeProfit ≤ price ∧
          cfg.maxHoldingDays ≤ date - p.entryDate) ∧
      (Engine.check_exit cfg p price date = none ↔
        ¬price ≤ p.stopLoss ∧ ¬p.takeProfit ≤ price ∧
          ¬cfg.maxHoldingDays ≤ date - p.entryDate) := by
  intro cfg p price date
  unfold Engine.check_exit
  split_ifs with h1 h2 h3 <;> simp_all [ge_iff_le]

/-- One engine trailing update never lowers the stop. -/
theorem update_trailing_stop_le (cfg : Engine.EngineConfig)
    (p : Engine.EnginePosition) (price : ℚ) :
    p.stopLoss ≤ (Engine.update_trailing cfg p price).stopLoss := by
  simp only [Engine.update_trailing]
  split_ifs with h1 h2
  · exact le_of_lt h2
  · exact le_refl _
  · exact le_refl _

/-- Folding engine trailing updates over any bar sequence never lowers the
stop. -/
theorem foldl_update_trailing_stop_le (cfg : Engine.EngineConfig) :
    ∀ (prices : List ℚ) (p : Engine.EnginePosition),
      p.stopLoss ≤ (prices.foldl (Engine.update_trailing cfg) p).stopLoss := by
  intro prices
  induction prices with
  | nil => intro p; exact le_refl _
  | cons x xs ih =>
    intro p
    exact le_trans (update_trailing_stop_le cfg p x) (ih _)

/-- C2.  `RiskManager.check_trailing_stop` returns either the existing stop
unchanged or the strictly improving candidate `high_water * (1 - pct)`, never
lowers the stop, and reports `triggered` only against the existing stop; the
engine's inline trailing update keeps the stop non-decreasing across any run
of successive bars. -/
theorem c2_stop_monotonicity :
    (∀ (pct : ℚ) (position : RiskManager.RmPosition) (price : ℚ),
      ((RiskManager.check_trailing_stop pct position price).2
          = position.stopLoss.getD 0 ∨
        ((RiskManager.check_trailing_stop pct position price).2
            = max (position.maxPrice.getD (position.entryPrice.getD 0)) price
                * (1 - pct) ∧
          position.stopLoss.getD 0
            < (RiskManager.check_trailing_stop pct position price).2)) ∧
      ((RiskManager.check_trailing_stop pct position price).1 = true →
        price ≤ position.stopLoss.getD 0) ∧
      position.stopLoss.getD 0
        ≤ (RiskManager.check_trailing_stop pct position price).2) ∧
    (∀ (cfg : Engine.EngineConfig) (p : Engine.EnginePosition) (prices : List ℚ),
      p.stopLoss ≤ (prices.foldl (Engine.update_trailing cfg) p).stopLoss) := by
  constructor
  · intro pct position price
    simp only [RiskManager.check_trailing_stop]
    split_ifs with h1 h2 h3 h4 h5
    · refine ⟨Or.inr ⟨?_, h3⟩, by simp, le_of_lt h3⟩
      rw [max_eq_right (le_of_lt h2)]
    · exact ⟨Or.inl rfl, fun _ => h4.2.2, le_refl _⟩
    · exact ⟨Or.inl rfl, by simp, le_refl _⟩
    · exact ⟨Or.inl rfl, fun _ => h5.2.2, le_refl _⟩
    · exact ⟨Or.inl rfl, by simp, le_refl _⟩
    · exact ⟨Or.inl rfl, by simp, le_refl _⟩
  · exact fun cfg p prices => foldl_update_trailing_stop_le cfg prices p

/-- C6, counterexample.  Adding a position for an instrument that already has
one is not vetoed by `PositionManager.add_position`: the stored position for
"SBER" afterwards is the new entry, not the untouched old one. -/
theorem c6_counterexample :
    PositionManager.dict_get
        (PositionManager.add_position "now" "nid" [("SBER", oldPosA)] "SBER"
          newInfoA) "SBER"
      = some (PositionManager.normalize_entry "now" "nid" "SBER" newInfoA) ∧
    PositionManager.normalize_entry "now" "nid" "SBER" newInfoA ≠ oldPosA := by
  constructor
  · rfl
  · norm_num [PositionManager.normalize_entry, newInfoA, oldPosA,
      PositionManager.LedgerPos.mk.injEq]

/-- C6, amended.  The backtest engine's open is a vetoed no-op when a position
is already open, leaving capital, position and trades unchanged; the ledger's
`add_position` does not fail — it overwrites the stored entry — but the keyed
store still holds at most one position per instrument (distinct keys stay
distinct under insertion). -/
theorem c6_single_position_per_instrument :
    (∀ (cfg : Engine.EngineConfig) (capital maxCap : ℚ)
       (p : Engine.EnginePosition) (trades : List Engine.TradeRecord)
       (price : ℚ) (date : ℤ),
       Engine.open_position cfg ⟨capital, some p, trades, maxCap⟩ price date
         = ⟨capital, some p, trades, maxCap⟩) ∧
    (∀ (nowIso nowId : String) (ps : List (String × PositionManager.LedgerPos))
       (symbol : String) (info : PositionManager.EntryInfo),
       (ps.map Prod.fst).Nodup →
       ((PositionManager.add_position nowIso nowId ps symbol info).map
           Prod.fst).Nodup) := by
  constructor
  · intro cfg capital maxCap p trades price date
    rfl
  · intro nowIso nowId ps symbol info hnd
    unfold PositionManager.add_position PositionManager.dict_set
    split_ifs with h1
    · have : (ps.map
          (fun kv => if kv.1 = symbol
            then (symbol, PositionManager.normalize_entry nowIso nowId symbol info)
            else kv)).map Prod.fst = ps.map Prod.fst := by
        rw [List.map_map]
        refine List.map_congr_left ?_
        intro kv _
        by_cases hk : kv.1 = symbol
        · simp [hk]
        · simp [hk]
      rw [this]
      exact hnd
    · rw [List.map_append]
      rw [List.nodup_append]
      refine ⟨hnd, List.nodup_singleton _, ?_⟩
      intro a ha hb
      simp only [List.map_cons, List.map_nil, List.mem_singleton] at hb
      rcases List.mem_map.mp ha with ⟨kv, hkv, hfst⟩
      exact h1 (List.any_eq_true.mpr ⟨kv, hkv, by simp [hfst, hb]⟩)

/-- A left fold whose step keeps non-negative accumulators non-negative on the
list's elements stays non-negative. -/
theorem foldl_nonneg {α : Type} (g : ℚ → α → ℚ) :
    ∀ (l : List α) (a : ℚ), 0 ≤ a →
      (∀ acc x, 0 ≤ acc → x ∈ l → 0 ≤ g acc x) → 0 ≤ l.foldl g a := by
  intro l
  induction l with
  | nil => intro a ha _; exact ha
  | cons x xs ih =>
    intro a ha hg
    refine ih (g a x) (hg a x ha (List.mem_cons_self x xs)) ?_
    intro acc y hacc hy
    exact hg acc y hacc (List.mem_cons_of_mem x hy)

/-- The summed absolute-loss aggregate of `calculate_portfolio_metrics` is
non-negative. -/
theorem total_losses_nonneg (closed : List PositionManager.ClosedTrade) :
    0 ≤ PositionManager.total_losses closed := by
  unfold PositionManager.total_losses
  exact foldl_nonneg (fun (a : ℚ) (p : PositionManager.ClosedTrade) => a + |p.pnlAbsolute|)
    (PositionManager.losing_trades closed) 0 (le_refl 0)
    (fun acc x hacc _ => add_nonneg hacc (abs_nonneg _))

/-- C7, counterexample.  A single closed trade with `close = entry` has
non-positive percent P&L, so it is a losing trade, yet its absolute P&L is 0,
so `calculate_portfolio_metrics` reports profit factor `float('inf')` with
one losing trade present — the claim's "+∞ iff zero losing trades" fails. -/
theorem c7_counterexample :
    PositionManager.profit_factor [PositionManager.close_pnl 100 100 1]
        = PositionManager.PFValue.inf ∧
      (PositionManager.losing_trades
          [PositionManager.close_pnl 100 100 1]).length = 1 := by
  constructor
  · norm_num [PositionManager.profit_factor, PositionManager.total_losses,
      PositionManager.losing_trades, PositionManager.close_pnl,
      PositionManager.pnl_percent, PositionManager.pnl_absolute,
      List.filter]
  · norm_num [PositionManager.losing_trades, PositionManager.close_pnl,
      PositionManager.pnl_percent, List.filter]

/-- C7, amended.  Both profit-factor computations return a zero-valued result
with no trades and never divide by zero; every finite profit factor is
non-negative (for the ledger version, given winning trades carry non-negative
absolute P&L, as long trades with positive entry price and quantity do); and
the value is `float('inf')` exactly when trades exist and the losing trades'
summed absolute P&L is zero — which includes break-even losing trades, not
only the zero-losing-trades case. -/
theorem c7_profit_factor_bounds :
    (PositionManager.profit_factor [] = PositionManager.PFValue.val 0) ∧
    (∀ (closed : List PositionManager.ClosedTrade),
      (∀ p ∈ closed, 0 < p.pnlPercent → 0 ≤ p.pnlAbsolute) →
      ∀ q, PositionManager.profit_factor closed = PositionManager.PFValue.val q →
        0 ≤ q) ∧
    (∀ (closed : List PositionManager.ClosedTrade),
      PositionManager.profit_factor closed = PositionManager.PFValue.inf ↔
        closed ≠ [] ∧ PositionManager.total_losses closed = 0) ∧
    (∀ (profits : List ℚ) (q : ℚ),
      Metrics.analyze_trades_pf profits = PositionManager.PFValue.val q →
        0 ≤ q) ∧
    (∀ (profits : List ℚ),
      Metrics.analyze_trades_pf profits = PositionManager.PFValue.inf ↔
        profits ≠ [] ∧ Metrics.mt_total_loss profits = 0) := by
  refine ⟨by norm_num [PositionManager.profit_factor], ?_, ?_, ?_, ?_⟩
  · intro closed hwin q hq
    unfold PositionManager.profit_factor at hq
    split_ifs at hq with h1 h2
    · simp only [PositionManager.PFValue.val.injEq] at hq
      rw [← hq]
    · simp only [PositionManager.PFValue.val.injEq] at hq
      rw [← hq]
      refine div_nonneg ?_ (le_of_lt h2)
      unfold PositionManager.total_wins
      refine foldl_nonneg
        (fun (a : ℚ) (p : PositionManager.ClosedTrade) => a + p.pnlAbsolute) _ 0
        (le_refl 0) ?_
      intro acc x hacc hx
      rcases List.mem_filter.mp hx with ⟨hmem, hpos⟩
      exact add_nonneg hacc (hwin x hmem (by simpa using hpos))
  · intro closed
    unfold PositionManager.profit_factor
    split_ifs with h1 h2
    · simp [List.isEmpty_iff.mp h1]
    · constructor
      · intro h; cases h
      · rintro ⟨-, hz⟩
        rw [hz] at h2
        exact absurd h2 (by norm_num)
    · constructor
      · intro _
        refine ⟨fun he => h1 (by simp [he]), ?_⟩
        exact le_antisymm (not_lt.mp h2) (total_losses_nonneg closed)
      · intro _; rfl
  · intro profits q hq
    unfold Metrics.analyze_trades_pf at hq
    split_ifs at hq with h1 h2
    · simp only [PositionManager.PFValue.val.injEq] at hq
      rw [← hq]
    · simp only [PositionManager.PFValue.val.injEq] at hq
      rw [← hq]
      refine div_nonneg ?_ (le_of_lt h2)
      unfold Metrics.mt_total_profit
      refine foldl_nonneg (fun (a : ℚ) (x : ℚ) => a + x) _ 0 (le_refl 0) ?_
      intro acc x hacc hx
      refine add_nonneg hacc (le_of_lt ?_)
      simpa using (List.mem_filter.mp hx).2
  · intro profits
    unfold Metrics.analyze_trades_pf
    split_ifs with h1 h2
    · simp [List.isEmpty_iff.mp h1]
    · constructor
      · intro h; cases h
      · rintro ⟨-, hz⟩
        rw [hz] at h2
        exact absurd h2 (by norm_num)
    · constructor
      · intro _
        refine ⟨fun he => h1 (by simp [he]), ?_⟩
        exact le_antisymm (not_lt.mp h2) (abs_nonneg _)
      · intro _; rfl

/-- Every point of the drawdown series lies in `[-1, 0]` when the running
maximum is non-negative and the equity entries are non-negative. -/
theorem dd_list_mem_bounds :
    ∀ (xs : List ℚ) (m : ℚ), 0 ≤ m → (∀ x ∈ xs, 0 ≤ x) →
      ∀ d ∈ Metrics.dd_list m xs, -1 ≤ d ∧ d ≤ 0 := by
  intro xs
  induction xs with
  | nil => intro m _ _ d hd; simp [Metrics.dd_list] at hd
  | cons x xs ih =>
    intro m hm hx d hd
    have hx0 : 0 ≤ x := hx x (List.mem_cons_self x xs)
    have hm2 : 0 ≤ max m x := le_trans hm (le_max_left m x)
    simp only [Metrics.dd_list, List.mem_cons] at hd
    rcases hd with rfl | hd
    · rcases eq_or_lt_of_le hm2 with h0 | h0
      · rw [← h0, div_zero]
        norm_num
      · have hle : x / max m x ≤ 1 := (div_le_one h0).mpr (le_max_right m x)
        have hge : 0 ≤ x / max m x := div_nonneg hx0 (le_of_lt h0)
        constructor <;> linarith
    · exact ih (max m x) hm2 (fun y hy => hx y (List.mem_cons_of_mem x hy)) d hd

/-- A fold of `min` over values in `[a, b]`, started in `[a, b]`, stays in
`[a, b]`. -/
theorem foldl_min_bounds (a b : ℚ) :
    ∀ (xs : List ℚ) (x : ℚ), a ≤ x → x ≤ b → (∀ y ∈ xs, a ≤ y ∧ y ≤ b) →
      a ≤ xs.foldl min x ∧ xs.foldl min x ≤ b := by
  intro xs
  induction xs with
  | nil => intro x hax hxb _; exact ⟨hax, hxb⟩
  | cons y ys ih =>
    intro x hax hxb hy
    have hyb := hy y (List.mem_cons_self y ys)
    refine ih (min x y) (le_min hax hyb.1) (le_trans (min_le_left x y) hxb) ?_
    intro z hz
    exact hy z (List.mem_cons_of_mem y hz)

/-- C8.  For every non-empty equity series with non-negative entries, the
maximum drawdown of `PerformanceMetrics.calculate_max_drawdown` lies between
0 and 1 (0% and 100%). -/
theorem c8_drawdown_bounds :
    ∀ (equity : List ℚ), equity ≠ [] → (∀ x ∈ equity, 0 ≤ x) →
      0 ≤ Metrics.calculate_max_drawdown equity ∧
        Metrics.calculate_max_drawdown equity ≤ 1 := by
  intro equity hne hpos
  match equity, hne with
  | x :: xs, _ =>
    have hx0 : 0 ≤ x := hpos x (List.mem_cons_self x xs)
    have hbounds := dd_list_mem_bounds (x :: xs) x hx0 hpos
    have hdd : Metrics.calculate_max_drawdown (x :: xs)
        = |(Metrics.dd_list (max x x) xs).foldl min (x / max x x - 1)| := rfl
    rw [hdd]
    have hhead := hbounds (x / max x x - 1) (List.mem_cons_self _ _)
    have hmin := foldl_min_bounds (-1) 0 (Metrics.dd_list (max x x) xs)
      (x / max x x - 1) hhead.1 hhead.2
      (fun y hy => hbounds y (List.mem_cons_of_mem _ hy))
    rw [abs_of_nonpos hmin.2]
    constructor <;> linarith [hmin.1]

/-- C8 witness: the bounds hold on the concrete series `[100, 50]`. -/
theorem c8_drawdown_bounds_witness :
    0 ≤ Metrics.calculate_max_drawdown [100, 50] ∧
      Metrics.calculate_max_drawdown [100, 50] ≤ 1 := by
  refine c8_drawdown_bounds [100, 50] (by simp) ?_
  intro x hx
  simp only [List.mem_cons, List.not_mem_nil, or_false] at hx
  rcases hx with rfl | rfl <;> norm_num

/-- Source `wf_loop` emits nothing once the training window overruns the period,
whatever fuel remains. -/
theorem wf_loop_stop (w s D : ℕ) :
    ∀ (fuel cur : ℕ), D < cur + w → Optimizer.wf_loop w s D fuel cur = [] := by
  intro fuel cur h
  cases fuel with
  | zero => rfl
  | succ fuel => simp [Optimizer.wf_loop, Nat.not_le.mpr h]

/-- The window loop, given enough fuel, equals the closed-form window list:
window `k` starts at `cur + k*s`, and there are `(D - w - cur)/s + 1` windows
when the first one fits. -/
theorem wf_loop_eq (w s D : ℕ) (hs : 0 < s) :
    ∀ (fuel cur : ℕ), cur + w ≤ D → (D - w - cur) / s + 1 ≤ fuel →
      Optimizer.wf_loop w s D fuel cur
        = (List.range ((D - w - cur) / s + 1)).map
            (fun k => (cur + k * s, cur + k * s + w,
              min (cur + k * s + w + s) D)) := by
  intro fuel
  induction fuel with
  | zero => intro cur _ hf; exact absurd hf (Nat.not_succ_le_zero _)
  | succ fuel ih =>
    intro cur hcur hf
    rw [Optimizer.wf_loop, if_pos hcur]
    by_cases hc : cur + s + w ≤ D
    · have hsub : s ≤ D - w - cur := by omega
      have hdiv : (D - w - cur) / s = (D - w - (cur + s)) / s + 1 := by
        have h1 : D - w - (cur + s) = D - w - cur - s := by omega
        rw [h1]
        exact Nat.div_eq_sub_div hs hsub
      have hf2 : (D - w - (cur + s)) / s + 1 ≤ fuel := by omega
      rw [hdiv, List.range_succ_eq_map]
      simp only [List.map_cons, List.map_map]
      rw [ih (cur + s) hc hf2]
      congr 1
      · simp
      · refine List.map_congr_left ?_
        intro k _
        simp only [Function.comp_apply, Nat.succ_eq_add_one]
        have hks : (k + 1) * s = k * s + s := by ring
        simp only [Prod.mk.injEq, hks]
        refine ⟨by omega, by omega, ?_⟩
        congr 1
        omega
    · have hz : Optimizer.wf_loop w s D fuel (cur + s) = [] :=
        wf_loop_stop w s D fuel (cur + s) (by omega)
      have hdiv0 : (D - w - cur) / s = 0 := Nat.div_eq_of_lt (by omega)
      rw [hz, hdiv0]
      simp [List.range_succ]

/-- C9.  `walk_forward_optimization` over `D` days with window `w ≤ D` and
step `s > 0` produces exactly `(D - w)/s + 1` windows, window `k` training on
days `[k*s, k*s + w]` and validating on `[k*s + w, min(k*s + w + s, D)]` — at
most `s` days ending no later than the next window's validation start, so the
validation periods do not overlap — and the 365/90/30 scenario gives exactly
10 windows. -/
theorem c9_walk_forward_windows :
    ∀ (w s D : ℕ), 0 < s → w ≤ D →
      (Optimizer.walk_forward_windows w s D
          = (List.range ((D - w) / s + 1)).map
              (fun k => (k * s, k * s + w, min (k * s + w + s) D))) ∧
      (Optimizer.walk_forward_windows w s D).length = (D - w) / s + 1 ∧
      (∀ k : ℕ, min (k * s + w + s) D ≤ (k + 1) * s + w) ∧
      (Optimizer.walk_forward_windows 90 30 365).length = 10 := by
  intro w s D hs hw
  have hmain : Optimizer.walk_forward_windows w s D
      = (List.range ((D - w) / s + 1)).map
          (fun k => (k * s, k * s + w, min (k * s + w + s) D)) := by
    unfold Optimizer.walk_forward_windows
    rw [wf_loop_eq w s D hs (D + 1) 0 (by omega)
      (by have := Nat.div_le_self (D - w - 0) s; omega)]
    simp only [Nat.sub_zero, Nat.zero_add]
  refine ⟨hmain, ?_, ?_, ?_⟩
  · rw [hmain, List.length_map, List.length_range]
  · intro k
    have h1 : min (k * s + w + s) D ≤ k * s + w + s := min_le_left _ _
    have h2 : (k + 1) * s = k * s + s := by ring
    omega
  · decide

/-- C9 witness: the window count at `w = 90`, `s = 30`, `D = 365` is 10,
obtained from the main theorem with its hypotheses discharged. -/
theorem c9_walk_forward_windows_witness :
    (Optimizer.walk_forward_windows 90 30 365).length = 10 :=
  (c9_walk_forward_windows 90 30 365 (by norm_num) (by norm_num)).2.2.2

/-- Closing an open position always leaves the open set empty. -/
theorem close_position_pos_none (cfg : Engine.EngineConfig)
    (st : Engine.EngineState) (price : ℚ) (date : ℤ) (reason : String)
    (p : Engine.EnginePosition) (h : st.pos = some p) :
    (Engine.close_position cfg st price date reason).pos = none := by
  simp only [Engine.close_position, h]

/-- Closing an open position appends exactly one sell trade carrying the given
reason and exit price. -/
theorem close_position_appends_sell (cfg : Engine.EngineConfig)
    (st : Engine.EngineState) (price : ℚ) (date : ℤ) (reason : String)
    (p : Engine.EnginePosition) (h : st.pos = some p) :
    ∃ t : Engine.TradeRecord,
      (Engine.close_position cfg st price date reason).trades
          = st.trades ++ [t] ∧
        t.side = "sell" ∧ t.reason = reason ∧ t.exitPrice = price := by
  simp only [Engine.close_position, h]
  exact ⟨_, rfl, rfl, rfl, rfl⟩

/-- C3, amended.  Every simulation run started flat ends with zero open
positions, and whenever a position is still open after the last traded bar it
is force-closed at the final bar's close price — with exit reason
`end_of_backtest` (the source's string), not `end_of_period`. -/
theorem c3_forced_closure :
    ∀ (cfg : Engine.EngineConfig) (sell buy : ℕ → Bool) (bars : List Engine.Bar)
      (st0 : Engine.EngineState),
      st0.pos = none →
      (Engine.run_simulation cfg sell buy st0 bars).pos = none ∧
      (∀ p, (Engine.run_sim_loop cfg sell buy st0 bars.enum).pos = some p →
        ∃ (lastBar : Engine.Bar) (t : Engine.TradeRecord),
          bars.getLast? = some lastBar ∧
          (Engine.run_simulation cfg sell buy st0 bars).trades
            = (Engine.run_sim_loop cfg sell buy st0 bars.enum).trades ++ [t] ∧
          t.side = "sell" ∧ t.reason = "end_of_backtest" ∧
          t.exitPrice = lastBar.close) := by
  intro cfg sell buy bars st0 h0
  cases hl : bars.getLast? with
  | none =>
    have hb : bars = [] := List.getLast?_eq_none_iff.mp hl
    subst hb
    constructor
    · exact h0
    · intro p hp
      have hp2 : st0.pos = some p := hp
      rw [h0] at hp2
      exact absurd hp2 (by simp)
  | some lastBar =>
    cases hp : (Engine.run_sim_loop cfg sell buy st0 bars.enum).pos with
    | none =>
      have hrun : Engine.run_simulation cfg sell buy st0 bars
          = Engine.run_sim_loop cfg sell buy st0 bars.enum := by
        unfold Engine.run_simulation
        rw [hl, hp]
      constructor
      · rw [hrun]
        exact hp
      · intro p hpp
        exact absurd hpp (by simp)
    | some p0 =>
      have hrun : Engine.run_simulation cfg sell buy st0 bars
          = Engine.close_position cfg
              (Engine.run_sim_loop cfg sell buy st0 bars.enum)
              lastBar.close lastBar.date "end_of_backtest" := by
        unfold Engine.run_simulation
        rw [hl, hp]
      constructor
      · rw [hrun]
        exact close_position_pos_none cfg _ lastBar.close lastBar.date
          "end_of_backtest" p0 hp
      · intro p hpp
        obtain ⟨t, ht, hside, hreason, hexit⟩ :=
          close_position_appends_sell cfg
            (Engine.run_sim_loop cfg sell buy st0 bars.enum)
            lastBar.close lastBar.date "end_of_backtest" p0 hp
        exact ⟨lastBar, t, rfl, by rw [hrun]; exact ht, hside, hreason, hexit⟩

/-- C3 witness: the forced-closure theorem applied to a concrete one-bar run
started flat. -/
theorem c3_forced_closure_witness :
    (Engine.run_simulation cfgA sellA buyA stA barsA).pos = none :=
  (c3_forced_closure cfgA sellA buyA barsA stA rfl).1

/-- C3, counterexample.  On a concrete run whose position survives to the last
traded bar, the recorded forced-closure reason is the string
`"end_of_backtest"`, not the claim's `"end_of_period"`. -/
theorem c3_counterexample :
    (Engine.run_sim_loop cfgA sellA buyA stA barsA.enum).pos.isSome = true ∧
    ((Engine.run_simulation cfgA sellA buyA stA barsA).trades.getLast?.map
        Engine.TradeRecord.reason) = some "end_of_backtest" ∧
    "end_of_backtest" ≠ "end_of_period" := by
  refine ⟨?_, ?_, by decide⟩
  · norm_num [Engine.run_sim_loop, Engine.sim_step, Engine.open_position, pyInt,
      cfgA, stA, barsA, sellA, buyA, List.enum, List.enumFrom]
  · norm_num [Engine.run_simulation, Engine.run_sim_loop, Engine.sim_step,
      Engine.open_position, Engine.close_position, Engine.check_exit,
      Engine.update_trailing, pyInt, cfgA, stA, barsA, sellA, buyA,
      List.enum, List.enumFrom, List.getLast?]

/-- A trailing-stop update never changes the position's quantity. -/
theorem update_trailing_quantity (cfg : Engine.EngineConfig)
    (p : Engine.EnginePosition) (price : ℚ) :
    (Engine.update_trailing cfg p price).quantity = p.quantity := by
  simp only [Engine.update_trailing]
  split_ifs <;> rfl

/-- Source `_open_position` preserves the cash invariant: it only opens when the full
cost fits in cash, deducts exactly that cost, and installs a positive lot
count. -/
theorem open_position_cashinv (cfg : Engine.EngineConfig)
    (st : Engine.EngineState) (price : ℚ) (date : ℤ) (h : CashInv st) :
    CashInv (Engine.open_position cfg st price date) := by
  obtain ⟨hc, hq⟩ := h
  cases hpos : st.pos with
  | some p =>
    simp only [Engine.open_position, hpos]
    exact ⟨hc, hq⟩
  | none =>
    simp only [Engine.open_position, hpos]
    split_ifs with h1 h2 h3 h4
    · exact ⟨hc, hq⟩
    · exact ⟨hc, hq⟩
    · push_neg at h3
      refine ⟨by linarith [h3.2], ?_⟩
      intro p hp
      simp only [Option.some.injEq] at hp
      rw [← hp]
      exact h3.1
    · exact ⟨hc, hq⟩
    · push_neg at h4
      refine ⟨by linarith [h4.2], ?_⟩
      intro p hp
      simp only [Option.some.injEq] at hp
      rw [← hp]
      exact h4.1

/-- Source `_close_position` preserves the cash invariant when the commission rate is
in `[0, 1]` and the close price is non-negative: it adds back
`close_value * (1 - rate) ≥ 0`. -/
theorem close_position_cashinv (cfg : Engine.EngineConfig)
    (st : Engine.EngineState) (price : ℚ) (date : ℤ) (reason : String)
    (hr0 : 0 ≤ cfg.commissionRate) (hr1 : cfg.commissionRate ≤ 1)
    (hp : 0 ≤ price) (h : CashInv st) :
    CashInv (Engine.close_position cfg st price date reason) := by
  obtain ⟨hc, hq⟩ := h
  cases hpos : st.pos with
  | none =>
    simp only [Engine.close_position, hpos]
    exact ⟨hc, hq⟩
  | some p =>
    simp only [Engine.close_position, hpos]
    have hq0 : 0 < p.quantity := hq p hpos
    have hcv : 0 ≤ (p.quantity : ℚ) * price :=
      mul_nonneg (by exact_mod_cast le_of_lt hq0) hp
    constructor
    · have hfac : 0 ≤ (p.quantity : ℚ) * price * (1 - cfg.commissionRate) :=
        mul_nonneg hcv (by linarith)
      have hring : (p.quantity : ℚ) * price * (1 - cfg.commissionRate)
          = (p.quantity : ℚ) * price
            - (p.quantity : ℚ) * price * cfg.commissionRate := by ring
      show 0 ≤ st.capital + ((p.quantity : ℚ) * price
          - (p.quantity : ℚ) * price * cfg.commissionRate)
      linarith [hfac, hring]
    · intro p2 hp2
      exact absurd hp2 (by simp)

/-- One simulation step preserves the cash invariant when the bar's close is
non-negative and the commission rate is in `[0, 1]`. -/
theorem sim_step_cashinv (cfg : Engine.EngineConfig) (sell buy : ℕ → Bool)
    (st : Engine.EngineState) (i : ℕ) (bar : Engine.Bar)
    (hr0 : 0 ≤ cfg.commissionRate) (hr1 : cfg.commissionRate ≤ 1)
    (hbar : 0 ≤ bar.close) (h : CashInv st) :
    CashInv (Engine.sim_step cfg sell buy st i bar) := by
  obtain ⟨hc, hq⟩ := h
  cases hpos : st.pos with
  | none =>
    simp only [Engine.sim_step, hpos]
    split_ifs with h1
    · exact open_position_cashinv cfg st bar.close bar.date ⟨hc, hq⟩
    · exact ⟨hc, hq⟩
  | some p0 =>
    simp only [Engine.sim_step, hpos]
    have hst2 : CashInv
        { st with pos := some (Engine.update_trailing cfg p0 bar.close) } := by
      refine ⟨hc, ?_⟩
      intro p hp
      simp only [Option.some.injEq] at hp
      rw [← hp, update_trailing_quantity]
      exact hq p0 hpos
    have hpos2 : ({ st with
        pos := some (Engine.update_trailing cfg p0 bar.close) }
          : Engine.EngineState).pos
        = some (Engine.update_trailing cfg p0 bar.close) := rfl
    cases Engine.check_exit cfg (Engine.update_trailing cfg p0 bar.close)
        bar.close bar.date with
    | none =>
      split_ifs with h1
      · exact close_position_cashinv cfg _ bar.close bar.date _ hr0 hr1 hbar hst2
      · exact hst2
    | some kind =>
      cases kind with
      | stop_loss =>
        exact close_position_cashinv cfg _ bar.close bar.date _ hr0 hr1 hbar hst2
      | take_profit =>
        exact close_position_cashinv cfg _ bar.close bar.date _ hr0 hr1 hbar hst2
      | max_holding_time =>
        exact close_position_cashinv cfg _ bar.close bar.date _ hr0 hr1 hbar hst2

/-- The bar loop preserves the cash invariant over any list of index-bar pairs
with non-negative closes. -/
theorem run_sim_loop_cashinv (cfg : Engine.EngineConfig) (sell buy : ℕ → Bool)
    (hr0 : 0 ≤ cfg.commissionRate) (hr1 : cfg.commissionRate ≤ 1) :
    ∀ (ibars : List (ℕ × Engine.Bar)) (st : Engine.EngineState),
      (∀ ib ∈ ibars, 0 ≤ ib.2.close) → CashInv st →
      CashInv (Engine.run_sim_loop cfg sell buy st ibars) := by
  intro ibars
  induction ibars with
  | nil => intro st _ h; exact h
  | cons ib ibars ih =>
    intro st hb h
    have h1 : CashInv (Engine.sim_step cfg sell buy st ib.1 ib.2) :=
      sim_step_cashinv cfg sell buy st ib.1 ib.2 hr0 hr1
        (hb ib (List.mem_cons_self ib ibars)) h
    have h2 : Engine.run_sim_loop cfg sell buy st (ib :: ibars)
        = Engine.run_sim_loop cfg sell buy
            (Engine.sim_step cfg sell buy st ib.1 ib.2) ibars := rfl
    rw [h2]
    exact ih (Engine.sim_step cfg sell buy st ib.1 ib.2)
      (fun x hx => hb x (List.mem_cons_of_mem ib hx)) h1

/-- C10.  Starting flat with non-negative capital, with a commission rate in
`[0, 1)` and non-negative bar closes, the cash balance is non-negative after
every prefix of the bar loop and after the full run including the forced
closure. -/
theorem c10_cash_never_negative :
    ∀ (cfg : Engine.EngineConfig) (sell buy : ℕ → Bool)
      (bars : List Engine.Bar) (capital0 : ℚ),
      0 ≤ cfg.commissionRate → cfg.commissionRate < 1 →
      (∀ b ∈ bars, 0 ≤ b.close) → 0 ≤ capital0 →
      (∀ n : ℕ,
        0 ≤ (Engine.run_sim_loop cfg sell buy ⟨capital0, none, [], capital0⟩
              ((bars.take n).enum)).capital) ∧
      0 ≤ (Engine.run_simulation cfg sell buy ⟨capital0, none, [], capital0⟩
            bars).capital := by
  intro cfg sell buy bars capital0 hr0 hr1 hbars hcap
  have hinit : CashInv (⟨capital0, none, [], capital0⟩ : Engine.EngineState) :=
    ⟨hcap, fun p hp => absurd hp (by simp)⟩
  have hloop : ∀ (l : List Engine.Bar), (∀ b ∈ l, 0 ≤ b.close) →
      CashInv (Engine.run_sim_loop cfg sell buy
        ⟨capital0, none, [], capital0⟩ l.enum) := by
    intro l hl
    refine run_sim_loop_cashinv cfg sell buy hr0 (le_of_lt hr1) l.enum _ ?_ hinit
    intro ib hib
    have hmem : ib.2 ∈ l := List.get?_mem (List.mem_enum_iff_get?.mp hib)
    exact hl ib.2 hmem
  constructor
  · intro n
    have := hloop (bars.take n)
      (fun b hb => hbars b (List.take_subset n bars hb))
    exact this.1
  · have hfull := hloop bars hbars
    cases hl : bars.getLast? with
    | none =>
      have hrun : Engine.run_simulation cfg sell buy
          ⟨capital0, none, [], capital0⟩ bars
          = Engine.run_sim_loop cfg sell buy
              ⟨capital0, none, [], capital0⟩ bars.enum := by
        unfold Engine.run_simulation
        rw [hl]
      rw [hrun]
      exact hfull.1
    | some lastBar =>
      have hlastmem : lastBar ∈ bars := by
        obtain ⟨hne, heq⟩ :=
          List.mem_getLast?_eq_getLast (Option.mem_def.mpr hl)
        rw [heq]
        exact List.getLast_mem hne
      have hlast : 0 ≤ lastBar.close := hbars lastBar hlastmem
      cases hpo : (Engine.run_sim_loop cfg sell buy
          ⟨capital0, none, [], capital0⟩ bars.enum).pos with
      | none =>
        have hrun : Engine.run_simulation cfg sell buy
            ⟨capital0, none, [], capital0⟩ bars
            = Engine.run_sim_loop cfg sell buy
                ⟨capital0, none, [], capital0⟩ bars.enum := by
          unfold Engine.run_simulation
          rw [hl, hpo]
        rw [hrun]
        exact hfull.1
      | some p0 =>
        have hrun : Engine.run_simulation cfg sell buy
            ⟨capital0, none, [], capital0⟩ bars
            = Engine.close_position cfg
                (Engine.run_sim_loop cfg sell buy
                  ⟨capital0, none, [], capital0⟩ bars.enum)
                lastBar.close lastBar.date "end_of_backtest" := by
          unfold Engine.run_simulation
          rw [hl, hpo]
        rw [hrun]
        exact (close_position_cashinv cfg _ lastBar.close lastBar.date
          "end_of_backtest" hr0 (le_of_lt hr1) hlast hfull).1

/-- C10 witness: the invariant theorem applied to a concrete one-bar run with
capital 1000 and all hypotheses discharged. -/
theorem c10_cash_never_negative_witness :
    0 ≤ (Engine.run_simulation cfgA sellA buyA ⟨1000, none, [], 1000⟩
          barsA).capital :=
  (c10_cash_never_negative cfgA sellA buyA barsA 1000
    (by norm_num [cfgA]) (by norm_num [cfgA])
    (by
      intro b hb
      simp only [barsA, List.mem_cons, List.not_mem_nil, or_false] at hb
      rw [hb]
      norm_num)
    (by norm_num)).2

end TradingBot
